import Mathlib

/-!
Verification development for the PartSync relay and client core.

The definitions below are a shallow embedding of the TypeScript sources:
the SQLite layer (`src/packages/server/src/db.ts`), the lock manager and
diff store (`src/packages/server/src/lockManager.ts`), the conflict
resolver, the socket event handlers, the agent-burst detector and the
watcher's classification of outgoing diffs.  SQLite tables are modelled
as Lean lists of row structures; `ORDER BY` is modelled by a stable
insertion sort (SQLite leaves the order of ties unspecified; the stable
sort fixes one admissible order, and no theorem below depends on the
tie order).  JavaScript `Date.now()` values are passed in explicitly as
`now` parameters.
-/

namespace PartSync

/-! ### Shared types and constants (packages/shared: types + constants) -/

/-- Author classification of a diff: `'human' | 'ai'` in the source.
The specification calls the `ai` value "agent". -/
inductive DiffAuthorType where
  | human
  | ai
deriving DecidableEq

/-- Lock type: `'editing' | 'ai-writing'` in the source.  The
specification calls the `ai-writing` value "agent-writing". -/
inductive LockType where
  | editing
  | aiWriting
deriving DecidableEq

/-- `MAX_DIFF_HISTORY = 100` from the shared constants. -/
def MAX_DIFF_HISTORY : Nat := 100

/-- `AI_BURST_THRESHOLD_MS = 50`; compared against JS number
differences, so typed as an integer. -/
def AI_BURST_THRESHOLD_MS : Int := 50

/-- `AI_BURST_COUNT = 3` from the shared constants. -/
def AI_BURST_COUNT : Nat := 3

/-- `LOCK_EXPIRY_MS = 5 * 60 * 1000`; compared against JS number
differences, so typed as an integer. -/
def LOCK_EXPIRY_MS : Int := 5 * 60 * 1000

/-- `FileDiff` wire/row type.  `id` is assigned by the store
(`id?: number` in the source), hence `Option`.  `compressed` defaults
to false as in the schema. -/
structure FileDiff where
  id : Option Nat := none
  file : String
  patch : String
  author : String
  type : DiffAuthorType := DiffAuthorType.human
  timestamp : Nat
  version : String
  previousVersion : String
  compressed : Bool := false
deriving DecidableEq

/-- The `id` column of a stored diff row.  Stored rows always carry
`some`; the default `0` is never used on well-formed tables. -/
def rowId (r : FileDiff) : Nat := r.id.getD 0

/-- `FileVersion` row: current fingerprint per file. -/
structure FileVersion where
  file : String
  hash : String
  timestamp : Nat
deriving DecidableEq

/-- `LockState` row: soft advisory lock. -/
structure LockState where
  file : String
  lockedBy : String
  lockType : LockType
  since : Nat
deriving DecidableEq

/-- `ConflictEvent` row/wire type. -/
structure ConflictEvent where
  id : Option Nat := none
  file : String
  conflictFile : String
  authorA : String
  authorB : String
  timestamp : Nat
  resolved : Bool
deriving DecidableEq

/-! ### SQLite database state (db.ts, schema.ts)

The four tables (`diffs`, `locks`, `file_versions`, `conflicts`) are
lists of rows; `nextDiffId`/`nextConflictId` model the AUTOINCREMENT
counters (ids start at 1, as in SQLite). -/

structure DbState where
  diffs : List FileDiff := []
  nextDiffId : Nat := 1
  fileVersions : List FileVersion := []
  locks : List LockState := []
  conflicts : List ConflictEvent := []
  nextConflictId : Nat := 1
deriving DecidableEq

/-- The empty, freshly initialized database. -/
def emptyDb : DbState := {}

/-- Comparator for `ORDER BY timestamp DESC`. -/
def tsGE (a b : FileDiff) : Prop := b.timestamp ≤ a.timestamp

instance : DecidableRel tsGE := fun a b => Nat.decLe b.timestamp a.timestamp

instance : IsTotal FileDiff tsGE := ⟨fun a b => Nat.le_total b.timestamp a.timestamp⟩

instance : IsTrans FileDiff tsGE := ⟨fun _ _ _ h h' => Nat.le_trans h' h⟩

/-- Comparator for `ORDER BY id ASC`. -/
def idLE (a b : FileDiff) : Prop := rowId a ≤ rowId b

instance : DecidableRel idLE := fun a b => Nat.decLe (rowId a) (rowId b)

instance : IsTotal FileDiff idLE := ⟨fun a b => Nat.le_total (rowId a) (rowId b)⟩

instance : IsTrans FileDiff idLE := ⟨fun _ _ _ h h' => Nat.le_trans h h'⟩

/-- `db.ts insertDiff`: INSERT INTO diffs, returning `lastInsertRowid`. -/
def insertDiff (diff : FileDiff) (db : DbState) : Nat × DbState :=
  (db.nextDiffId,
   { db with
      diffs := db.diffs ++ [{ diff with id := some db.nextDiffId }]
      nextDiffId := db.nextDiffId + 1 })

/-- `db.ts getDiffsByFile`: SELECT * FROM diffs WHERE file = ?
ORDER BY timestamp DESC LIMIT ? (default 100).  Newest first. -/
def getDiffsByFile (file : String) (db : DbState) (limit : Nat := 100) : List FileDiff :=
  (List.insertionSort tsGE (db.diffs.filter (fun r => r.file == file))).take limit

/-- `COALESCE(MAX(id), 0)` over rows of `file` whose `version` column
equals `sinceVersion`. -/
def maxMatchingId (file sinceVersion : String) (rows : List FileDiff) : Nat :=
  rows.foldr
    (fun r acc => if r.file == file && r.version == sinceVersion then max (rowId r) acc else acc) 0

/-- `db.ts getDiffsSinceVersion`: rows of `file` whose id exceeds the
largest id matching `version = sinceVersion` for that file (0 when no
row matches), ORDER BY id ASC. -/
def getDiffsSinceVersion (file sinceVersion : String) (db : DbState) : List FileDiff :=
  List.insertionSort idLE
    (db.diffs.filter
      (fun r => r.file == file && decide (maxMatchingId file sinceVersion db.diffs < rowId r)))

/-- `db.ts pruneOldDiffs`: DELETE rows of `file` whose id is not among
the newest `maxKeep` rows of that file by timestamp. -/
def pruneOldDiffs (file : String) (maxKeep : Nat) (db : DbState) : DbState :=
  { db with
     diffs := db.diffs.filter
       (fun r => r.file != file ||
         (((List.insertionSort tsGE (db.diffs.filter (fun x => x.file == file))).take maxKeep).map
           rowId).contains (rowId r)) }

/-- `db.ts getDiffById`: SELECT * FROM diffs WHERE id = ?. -/
def getDiffById (id : Nat) (db : DbState) : Option FileDiff :=
  db.diffs.find? (fun r => rowId r == id)

/-- `db.ts upsertFileVersion`: INSERT OR REPLACE on the `file` primary
key (the replaced row reappears at the end, as a fresh rowid does). -/
def upsertFileVersion (fv : FileVersion) (db : DbState) : DbState :=
  { db with fileVersions := db.fileVersions.filter (fun r => r.file != fv.file) ++ [fv] }

/-- `db.ts getFileVersion`: SELECT * FROM file_versions WHERE file = ?. -/
def getFileVersion (file : String) (db : DbState) : Option FileVersion :=
  db.fileVersions.find? (fun r => r.file == file)

/-- `db.ts getAllFileVersions`: the `file → hash` map, in row order. -/
def getAllFileVersions (db : DbState) : List (String × String) :=
  db.fileVersions.map (fun r => (r.file, r.hash))

/-- `db.ts insertConflict`: INSERT INTO conflicts, returning the id. -/
def insertConflict (c : ConflictEvent) (db : DbState) : Nat × DbState :=
  (db.nextConflictId,
   { db with
      conflicts := db.conflicts ++ [{ c with id := some db.nextConflictId }]
      nextConflictId := db.nextConflictId + 1 })

/-- `db.ts upsertLock`: INSERT OR REPLACE INTO locks on the `file`
primary key. -/
def upsertLock (lock : LockState) (db : DbState) : DbState :=
  { db with locks := db.locks.filter (fun r => r.file != lock.file) ++ [lock] }

/-- `db.ts removeLock`: DELETE FROM locks WHERE file = ?. -/
def removeLock (file : String) (db : DbState) : DbState :=
  { db with locks := db.locks.filter (fun r => r.file != file) }

/-- `db.ts removeLocksForClient`: DELETE FROM locks WHERE locked_by = ?. -/
def removeLocksForClient (clientName : String) (db : DbState) : DbState :=
  { db with locks := db.locks.filter (fun r => r.lockedBy != clientName) }

/-! ### Diff store (lockManager.ts, second unit: diffStore) -/

/-- `diffStore.storeDiff`: insert the diff, upsert the file's current
version to the diff's `version`/`timestamp`, prune the file's history
to `MAX_DIFF_HISTORY`. -/
def storeDiff (diff : FileDiff) (db : DbState) : Nat × DbState :=
  match insertDiff diff db with
  | (id, db1) =>
    let db2 := upsertFileVersion { file := diff.file, hash := diff.version, timestamp := diff.timestamp } db1
    (id, pruneOldDiffs diff.file MAX_DIFF_HISTORY db2)

/-- `diffStore.getDiffsForFile`: with a (truthy) `sinceVersion`,
delegate to `getDiffsSinceVersion`; otherwise to `getDiffsByFile`.
The source tests JS truthiness, so an empty string also falls through
to `getDiffsByFile`. -/
def getDiffsForFile (file : String) (sinceVersion : Option String) (db : DbState) : List FileDiff :=
  match sinceVersion with
  | some v => if v = "" then getDiffsByFile file db else getDiffsSinceVersion file v db
  | none => getDiffsByFile file db

/-! ### Lock manager (lockManager.ts, first unit)

The in-memory `Map` (insertion-ordered, one entry per file) is a list
of entries; each operation also threads the persistent `locks` table
through `DbState`. -/

/-- In-memory lock entry: a `LockState` plus the runtime-only socket id. -/
structure LockEntry extends LockState where
  socketId : Option String := none
deriving DecidableEq

/-- The lock manager's module state: the in-memory map and the database
holding the persisted `locks` table. -/
structure LockManagerState where
  inMemoryLocks : List LockEntry := []
  db : DbState := {}
deriving DecidableEq

/-- `Map.set` semantics on the insertion-ordered entry list: replace in
place when the file key is present, else append. -/
def memSet (e : LockEntry) (l : List LockEntry) : List LockEntry :=
  if l.any (fun x => x.file == e.file) then
    l.map (fun x => if x.file == e.file then e else x)
  else l ++ [e]

/-- `lockManager.acquireLock`.  Same holder: refresh type/since/socket
and persist.  Different holder with a non-expired lock: fail, returning
the existing lock, touching nothing.  Otherwise (absent or expired):
install and persist. -/
def acquireLock (file lockedBy : String) (lockType : LockType) (socketId : Option String)
    (now : Nat) (s : LockManagerState) :
    (Bool × Option LockState) × LockManagerState :=
  match s.inMemoryLocks.find? (fun e => e.file == file) with
  | some existing =>
    if existing.lockedBy = lockedBy then
      ((true, none),
       { inMemoryLocks :=
           memSet { existing with lockType := lockType, since := now, socketId := socketId }
             s.inMemoryLocks
         db := upsertLock { file := file, lockedBy := lockedBy, lockType := lockType, since := now }
             s.db })
    else if (now : Int) - (existing.since : Int) < LOCK_EXPIRY_MS then
      ((false, some existing.toLockState), s)
    else
      ((true, none),
       { inMemoryLocks :=
           memSet { file := file, lockedBy := lockedBy, lockType := lockType, since := now,
                    socketId := socketId } s.inMemoryLocks
         db := upsertLock { file := file, lockedBy := lockedBy, lockType := lockType, since := now }
             s.db })
  | none =>
    ((true, none),
     { inMemoryLocks :=
         memSet { file := file, lockedBy := lockedBy, lockType := lockType, since := now,
                  socketId := socketId } s.inMemoryLocks
       db := upsertLock { file := file, lockedBy := lockedBy, lockType := lockType, since := now }
           s.db })

/-- `lockManager.releaseLock`: no-op when absent; when `lockedBy` is
supplied and differs, fail; else remove from the map and the store. -/
def releaseLock (file : String) (lockedBy : Option String) (s : LockManagerState) :
    Bool × LockManagerState :=
  match s.inMemoryLocks.find? (fun e => e.file == file) with
  | none => (false, s)
  | some existing =>
    match lockedBy with
    | some who =>
      if existing.lockedBy ≠ who then (false, s)
      else (true, { inMemoryLocks := s.inMemoryLocks.filter (fun e => e.file != file)
                    db := removeLock file s.db })
    | none => (true, { inMemoryLocks := s.inMemoryLocks.filter (fun e => e.file != file)
                       db := removeLock file s.db })

/-- Match condition of `releaseAllLocksForClient`:
`lock.lockedBy === clientName || (socketId && lock.socketId === socketId)`. -/
def releasedForClient (clientName : String) (socketId : Option String) (e : LockEntry) : Bool :=
  e.lockedBy == clientName ||
    (match socketId with
     | some sid => e.socketId == some sid
     | none => false)

/-- `lockManager.releaseAllLocksForClient`: drop every matching entry
from the in-memory map; when anything was released, run the single
store deletion `removeLocksForClient clientName`.  Returns the released
file list (in map order). -/
def releaseAllLocksForClient (clientName : String) (socketId : Option String)
    (s : LockManagerState) : List String × LockManagerState :=
  let released := (s.inMemoryLocks.filter (releasedForClient clientName socketId)).map
    (fun e => e.file)
  (released,
   { inMemoryLocks := s.inMemoryLocks.filter (fun e => !releasedForClient clientName socketId e)
     db := if released.length > 0 then removeLocksForClient clientName s.db else s.db })

/-- `lockManager.cleanExpiredLocks`: remove every entry with
`now - since ≥ LOCK_EXPIRY_MS` from the map and the store; return the
expired file list. -/
def cleanExpiredLocks (now : Nat) (s : LockManagerState) : List String × LockManagerState :=
  let isExpired : LockEntry → Bool :=
    fun e => decide (LOCK_EXPIRY_MS ≤ (now : Int) - (e.since : Int))
  ((s.inMemoryLocks.filter isExpired).map (fun e => e.file),
   { inMemoryLocks := s.inMemoryLocks.filter (fun e => !isExpired e)
     db := { s.db with
              locks := s.db.locks.filter
                (fun r => !(s.inMemoryLocks.filter isExpired).any (fun e => e.file == r.file)) } })

/-- `lockManager.restoreLocksFromDb`: load persisted locks into the
(empty-at-startup) map, keeping only the non-expired ones and deleting
the expired ones from the store. -/
def restoreLocksFromDb (now : Nat) (s : LockManagerState) : LockManagerState :=
  let keep : LockState → Bool := fun r => decide ((now : Int) - (r.since : Int) < LOCK_EXPIRY_MS)
  { inMemoryLocks :=
      s.inMemoryLocks ++ (s.db.locks.filter keep).map (fun r => { toLockState := r })
    db := { s.db with locks := s.db.locks.filter keep } }

/-! ### Agent-burst detector (unnamed source: agentDetector)
plus the watcher's use of it (watcher.ts processFileChange). -/

/-- Detector module state: the bounded window of recent write events,
the burst flag, and the pending 2-second fallback timer's deadline
(`some d` while a timeout is scheduled to fire at time `d`). -/
structure AgentDetectorState where
  recentWrites : List (String × Nat) := []
  burstMode : Bool := false
  burstDeadline : Option Nat := none
deriving DecidableEq

/-- `while (recentWrites.length > 20) recentWrites.shift()`: keep the
last 20 events. -/
def trimTo20 (l : List (String × Nat)) : List (String × Nat) :=
  (l.reverse.take 20).reverse

/-- `Array.prototype.slice(-n)`: the last `n` elements. -/
def lastN (n : Nat) (l : List (String × Nat)) : List (String × Nat) :=
  (l.reverse.take n).reverse

/-- Every consecutive inter-arrival in the window is below
`AI_BURST_THRESHOLD_MS` (JS number subtraction, hence `Int`). -/
def allRapid (recent : List (String × Nat)) : Bool :=
  (recent.zip (recent.drop 1)).all
    (fun p => decide ((p.2.2 : Int) - (p.1.2 : Int) < AI_BURST_THRESHOLD_MS))

/-- `agentDetector.recordWrite`: push the event, trim the window to 20,
enter burst mode when the last `AI_BURST_COUNT` events are all rapid,
and re-arm the 2-second fallback timer. -/
def recordWrite (file : String) (now : Nat) (s : AgentDetectorState) : AgentDetectorState :=
  let writes := trimTo20 (s.recentWrites ++ [(file, now)])
  let recent := lastN AI_BURST_COUNT writes
  let burst :=
    if AI_BURST_COUNT ≤ recent.length && allRapid recent && !s.burstMode then true
    else s.burstMode
  { recentWrites := writes, burstMode := burst, burstDeadline := some (now + 2000) }

/-- The 2-second fallback timeout firing: leaves burst mode.  This
event occurs only when a deadline is armed, the current time has
reached it, and no `recordWrite` intervened (each write re-arms the
timer). -/
def burstTimerFire (s : AgentDetectorState) : AgentDetectorState :=
  { s with burstMode := false, burstDeadline := none }

/-- `agentDetector.getAuthorType`: `'ai'` during a burst, else
`'human'`. -/
def getAuthorType (s : AgentDetectorState) : DiffAuthorType :=
  if s.burstMode then DiffAuthorType.ai else DiffAuthorType.human

/-- watcher.ts `processFileChange`: the `type` field of the emitted
diff is `getAuthorType()`. -/
def emittedDiffType (s : AgentDetectorState) : DiffAuthorType :=
  getAuthorType s

/-- watcher.ts `processFileChange`: the lock emitted alongside the diff
uses `'ai-writing'` when the author type is `'ai'`, else `'editing'`. -/
def emittedLockType (s : AgentDetectorState) : LockType :=
  if getAuthorType s = DiffAuthorType.ai then LockType.aiWriting else LockType.editing

/-! ### Conflict resolver (unnamed source: conflictResolver)

`extractPatchRanges` scans the patch text with the regex
`@@ -(\d+)(?:,(\d+))? \+(\d+)(?:,(\d+))? @@` (global, non-overlapping,
leftmost).  The embedding is a character-level matcher: `matchHunkAt`
recognizes the regex at the head of a character list (the `\d+` groups
are maximal digit runs, so the regex never backtracks), and `scanHunks`
advances one character on failure, past the match on success — exactly
the `exec`-loop semantics. -/

/-- Numeric value of a digit run (`parseInt` on `\d+`). -/
def digitsToNat (ds : List Char) : Nat :=
  ds.foldl (fun n c => n * 10 + (c.toNat - '0'.toNat)) 0

/-- Consume a maximal nonempty digit run. -/
def takeDigits (cs : List Char) : Option (Nat × List Char) :=
  if (cs.takeWhile Char.isDigit).isEmpty then none
  else some (digitsToNat (cs.takeWhile Char.isDigit), cs.drop (cs.takeWhile Char.isDigit).length)

/-- Consume the optional `(?:,(\d+))?` group: a comma followed by a
digit run; when the comma is not followed by digits the group matches
empty (the comma is left unconsumed, and the enclosing match will then
fail on the following literal). -/
def matchOptCount (cs : List Char) : Option Nat × List Char :=
  match cs with
  | ',' :: rest =>
    (match takeDigits rest with
     | some (n, r) => (some n, r)
     | none => (none, cs))
  | _ => (none, cs)

/-- Recognize one hunk header at the head of the list, returning the
new-side pair `(c, d?)` (capture groups 3 and 4; groups 1 and 2 are
matched but unused, as in the source) and the remaining characters. -/
def matchHunkAt (cs : List Char) : Option ((Nat × Option Nat) × List Char) :=
  match cs with
  | '@' :: '@' :: ' ' :: '-' :: r0 =>
    (match takeDigits r0 with
     | none => none
     | some (_, r1) =>
       match matchOptCount r1 with
       | (_, r2) =>
         match r2 with
         | ' ' :: '+' :: r3 =>
           (match takeDigits r3 with
            | none => none
            | some (c, r4) =>
              match matchOptCount r4 with
              | (dOpt, r5) =>
                match r5 with
                | ' ' :: '@' :: '@' :: r6 => some ((c, dOpt), r6)
                | _ => none)
         | _ => none)
  | _ => none

/-- The global `exec` loop, structurally recursive on a fuel argument
so that it computes in the kernel.  Each step either advances one
character or jumps past a whole match (which, by `matchHunkAt_length`
below, is strictly shorter), so fuel `cs.length` always suffices: the
`0` branch is reached only on the empty list, where `[]` is the
correct answer. -/
def scanHunksAux : Nat → List Char → List (Nat × Option Nat)
  | 0, _ => []
  | _, [] => []
  | fuel + 1, c :: cs =>
    match matchHunkAt (c :: cs) with
    | some (cd, rest) => cd :: scanHunksAux fuel rest
    | none => scanHunksAux fuel cs

/-- The global `exec` loop over the patch text: collect the new-side
pairs of every hunk header, left to right, non-overlapping. -/
def scanHunks (cs : List Char) : List (Nat × Option Nat) :=
  scanHunksAux cs.length cs

/-- A line range of a patch; `stop` is `none` for `Infinity`
(the field is named `end` in the source, a reserved word here). -/
structure PatchRange where
  start : Int
  stop : Option Int
deriving DecidableEq

/-- `conflictResolver.extractPatchRanges`: new-side ranges
`{start = c, end = c + d - 1}` with `d` defaulting to 1
(`parseInt(match[4] || '1')`); a patch with no hunk headers yields the
single full-file range `{0, Infinity}`. -/
def extractPatchRanges (patch : String) : List PatchRange :=
  let ranges := (scanHunks patch.data).map
    (fun cd => { start := (cd.1 : Int), stop := some ((cd.1 : Int) + (cd.2.getD 1 : Int) - 1) })
  if ranges.isEmpty then [{ start := 0, stop := none }] else ranges

/-- `x ≤ e` where `e` may be `Infinity`. -/
def leStop (x : Int) (e : Option Int) : Bool :=
  match e with
  | none => true
  | some v => decide (x ≤ v)

/-- Closed-inclusive intersection test of two ranges:
`a.start <= b.end && b.start <= a.end`. -/
def rangesOverlap (a b : PatchRange) : Bool :=
  leStop a.start b.stop && leStop b.start a.stop

/-- `conflictResolver.checkOverlap`: some range of A intersects some
range of B. -/
def checkOverlap (rangesA rangesB : List PatchRange) : Bool :=
  rangesA.any (fun a => rangesB.any (fun b => rangesOverlap a b))

/-- JS `String.prototype.split('.')` on a character list: the (always
nonempty) list of dot-separated segments, adjacent dots yielding empty
segments. -/
def splitOnDot : List Char → List (List Char)
  | [] => [[]]
  | c :: cs =>
    if c = '.' then [] :: splitOnDot cs
    else
      match splitOnDot cs with
      | [] => [[c]]
      | h :: t => (c :: h) :: t

/-- JS `file.split('.').pop()` (total: `split` never returns an empty
array). -/
def splitPop (s : String) : String :=
  match (splitOnDot s.data).getLast? with
  | some l => String.mk l
  | none => ""

/-- JS `file.includes('.')`. -/
def includesDot (s : String) : Bool :=
  s.data.contains '.'

/-- The extension part of the conflict copy name:
`file.includes('.') ? file.split('.').pop() : 'ts'`. -/
def conflictExt (file : String) : String :=
  if includesDot file then splitPop file else "ts"

/-- JS `file.replace(/\.[^/.]+$/, '')`: strip a trailing dot-extension
whose text is nonempty and free of `/` and `.`; otherwise unchanged. -/
def stripExtension (s : String) : String :=
  match s.data.reverse.dropWhile (fun c => c != '.' && c != '/') with
  | '.' :: rest =>
    if (s.data.reverse.takeWhile (fun c => c != '.' && c != '/')).isEmpty then s
    else String.mk rest.reverse
  | _ => s

/-- The synthesized conflict copy name
`<base>.conflict-<now_ms>.<ext>`. -/
def conflictFileName (file : String) (now : Nat) : String :=
  stripExtension file ++ ".conflict-" ++ toString now ++ "." ++ conflictExt file

/-- Result record of `resolveConflict` (the source returns
`{merged, conflictEvent?, conflictFileName?}`). -/
structure ResolveResult where
  merged : Bool
  conflictEvent : Option ConflictEvent := none
  conflictFileName : Option String := none
deriving DecidableEq

/-- `conflictResolver.resolveConflict`: merged when the two patches'
ranges do not overlap; otherwise build the conflict copy name, persist
a `ConflictEvent` with `resolved = false`, and return it. -/
def resolveConflict (existingDiff incomingDiff : FileDiff) (now : Nat) (db : DbState) :
    ResolveResult × DbState :=
  let existingRanges := extractPatchRanges existingDiff.patch
  let incomingRanges := extractPatchRanges incomingDiff.patch
  if checkOverlap existingRanges incomingRanges then
    let name := conflictFileName incomingDiff.file now
    let ev : ConflictEvent :=
      { file := incomingDiff.file, conflictFile := name,
        authorA := existingDiff.author, authorB := incomingDiff.author,
        timestamp := now, resolved := false }
    ({ merged := false, conflictEvent := some ev, conflictFileName := some name },
     (insertConflict ev db).2)
  else
    ({ merged := true }, db)

/-! ### Socket event handlers (db.ts, second unit: socketHandlers)

Each handler is modelled as a function of the message, the current
time, and the database state, returning the new state and a record of
the messages it emits (`conflictBroadcast` / `rebroadcast` go to all /
other connections respectively, as in the source). -/

/-- The `file:diff` handler's conflict-check selection (lines 251-258):
when a FileVersion row exists for `diff.file` and its hash differs from
`diff.previousVersion`, fetch the file's diff list
(`getDiffsForFile`, i.e. newest-first `getDiffsByFile`) and take
`recentDiffs[recentDiffs.length - 1]`; otherwise no check happens. -/
def conflictCheckTarget (db : DbState) (diff : FileDiff) : Option FileDiff :=
  match getFileVersion diff.file db with
  | some currentVersion =>
    if currentVersion.hash ≠ diff.previousVersion then
      (getDiffsForFile diff.file none db).getLast?
    else none
  | none => none

/-- Outcome of the `file:diff` handler: the new database state, the
`file:conflict` event emitted to all connections (when any), the stored
diff's id, and the diff re-broadcast to the other connections. -/
structure DiffOutcome where
  db : DbState
  conflictBroadcast : Option ConflictEvent
  storedId : Nat
  rebroadcast : FileDiff
deriving DecidableEq

/-- The `file:diff` handler: run the conflict check when the version
chain mismatches and a last diff exists, emitting `file:conflict` on a
detected conflict; then store the diff regardless (insert, version
upsert, prune) and re-broadcast it, with its id, to the others. -/
def handleFileDiff (diff : FileDiff) (now : Nat) (db : DbState) : DiffOutcome :=
  let checked :=
    match conflictCheckTarget db diff with
    | some lastDiff =>
      let r := resolveConflict lastDiff diff now db
      (if r.1.merged = false then r.1.conflictEvent else none, r.2)
    | none => (none, db)
  let stored := storeDiff diff checked.2
  { db := stored.2
    conflictBroadcast := checked.1
    storedId := stored.1
    rebroadcast := { diff with id := some stored.1 } }

/-- One server file's contribution to the handshake response
(`sync:handshake` handler loop body): skipped when the client's hash
equals the server's; `getDiffsForFile file clientHash`
(= `getDiffsSinceVersion`) when the client sent a truthy hash;
`getDiffsForFile file` (= newest-first `getDiffsByFile`) when the
client has no (or an empty) hash. -/
def handshakeMissingFor (db : DbState) (clientVersions : List (String × String))
    (fv : String × String) : List FileDiff :=
  match clientVersions.lookup fv.1 with
  | some clientHash =>
    if clientHash = fv.2 then []
    else if clientHash = "" then getDiffsByFile fv.1 db
    else getDiffsSinceVersion fv.1 clientHash db
  | none => getDiffsByFile fv.1 db

/-- The `missingDiffs` list of the `sync:handshake` response: the
per-file contributions concatenated in server `file_versions` order.
(The response's `fullFiles` is always empty and `locks` is the lock
snapshot; neither affects the diff list.) -/
def handleHandshake (db : DbState) (clientVersions : List (String × String)) : List FileDiff :=
  (getAllFileVersions db).flatMap (handshakeMissingFor db clientVersions)

/-- The `sync:full-file` handler: upsert the FileVersion row with the
client-supplied hash at the current time, and re-broadcast the payload
to the other connections as `sync:apply-full-file`. -/
def handleSyncFullFile (file content hash : String) (now : Nat) (db : DbState) :
    DbState × (String × String × String) :=
  (upsertFileVersion { file := file, hash := hash, timestamp := now } db,
   (file, content, hash))

/-- Outcome of the `diff:undo` handler: the database state and the
reverse diff broadcast to all connections (sender included), when the
referenced diff exists. -/
structure UndoOutcome where
  db : DbState
  broadcastAll : Option FileDiff
deriving DecidableEq

/-- The `diff:undo` handler: look the diff up by id; when found,
synthesize the reverse diff (same patch text, swapped
version/previousVersion, timestamp now, author = caller, type human)
and broadcast it to all connections.  Nothing is written to the
store. -/
def handleDiffUndo (clientName : String) (diffId : Nat) (now : Nat) (db : DbState) :
    UndoOutcome :=
  match getDiffById diffId db with
  | none => { db := db, broadcastAll := none }
  | some diff =>
    { db := db
      broadcastAll := some
        { file := diff.file, patch := diff.patch, author := clientName,
          type := DiffAuthorType.human, timestamp := now,
          version := diff.previousVersion, previousVersion := diff.version } }

/-! ### Specification-side predicates

These restate, in the specification's own vocabulary, the properties
the claims assert of the implementation; theorems below relate them to
the executable embedding. -/

/-- `x ≤ e` where `e` may be `+Infinity`, as a proposition. -/
def StopLE (x : Int) (e : Option Int) : Prop :=
  match e with
  | none => True
  | some v => x ≤ v

instance (x : Int) (e : Option Int) : Decidable (StopLE x e) :=
  match e with
  | none => isTrue trivial
  | some v => inferInstanceAs (Decidable (x ≤ v))

/-- Closed-inclusive intersection of two ranges, as the specification
words it: `a.start ≤ b.end ∧ b.start ≤ a.end`. -/
def RangesIntersect (a b : PatchRange) : Prop :=
  StopLE a.start b.stop ∧ StopLE b.start a.stop

instance (a b : PatchRange) : Decidable (RangesIntersect a b) :=
  inferInstanceAs (Decidable (StopLE a.start b.stop ∧ StopLE b.start a.stop))

/-- Two diffs conflict iff some range of one intersects some range of
the other. -/
def SpecOverlaps (rangesA rangesB : List PatchRange) : Prop :=
  ∃ a ∈ rangesA, ∃ b ∈ rangesB, RangesIntersect a b

instance (rangesA rangesB : List PatchRange) : Decidable (SpecOverlaps rangesA rangesB) :=
  inferInstanceAs (Decidable (∃ a ∈ rangesA, ∃ b ∈ rangesB, RangesIntersect a b))

/-- `m` is the largest id of a row of `file` whose `version` column
equals `version`. -/
def IsGreatestMatchingId (db : DbState) (file version : String) (m : Nat) : Prop :=
  (∃ r ∈ db.diffs, r.file = file ∧ r.version = version ∧ rowId r = m) ∧
  (∀ r ∈ db.diffs, r.file = file → r.version = version → rowId r ≤ m)

instance (db : DbState) (file version : String) (m : Nat) :
    Decidable (IsGreatestMatchingId db file version m) :=
  inferInstanceAs (Decidable (_ ∧ _))

/-- No row of `file` has `version` in its `version` column. -/
def NoMatchingVersion (db : DbState) (file version : String) : Prop :=
  ∀ r ∈ db.diffs, r.file = file → r.version = version → False

/-- The rows of the `diffs` table belonging to one file. -/
def fileRows (file : String) (db : DbState) : List FileDiff :=
  db.diffs.filter (fun r => r.file == file)

/-- Well-formedness of the `diffs` table as SQLite guarantees it:
ids are assigned (`some`), positive, below the autoincrement counter,
and pairwise distinct. -/
def WfDiffIds (db : DbState) : Prop :=
  ((db.diffs.map rowId).Nodup) ∧
  ∀ r ∈ db.diffs, r.id.isSome = true ∧ 0 < rowId r ∧ rowId r < db.nextDiffId

instance (db : DbState) : Decidable (WfDiffIds db) :=
  inferInstanceAs (Decidable (_ ∧ _))

/-- The `diffs` table right after `insertDiff` within `storeDiff`. -/
def insertedRows (diff : FileDiff) (db : DbState) : List FileDiff :=
  db.diffs ++ [{ diff with id := some db.nextDiffId }]

/-- The newest `MAX_DIFF_HISTORY` rows (by timestamp) of the inserted
diff's file, i.e. the rows `pruneOldDiffs` retains for that file. -/
def keptRows (diff : FileDiff) (db : DbState) : List FileDiff :=
  (List.insertionSort tsGE
    ((insertedRows diff db).filter (fun r => r.file == diff.file))).take MAX_DIFF_HISTORY

/-! ### Concrete fixtures used by counterexamples and witnesses -/

/-- A stored diff for `a.ts`: id 1, timestamp 100. -/
def exDiff1 : FileDiff :=
  { id := some 1, file := "a.ts", patch := "@@ -1,1 +1,1 @@\n-x\n+y\n", author := "alice",
    timestamp := 100, version := "h1", previousVersion := "h0" }

/-- A later stored diff for `a.ts`: id 2, timestamp 200. -/
def exDiff2 : FileDiff :=
  { id := some 2, file := "a.ts", patch := "@@ -5,2 +5,2 @@\n-u\n+v\n", author := "bob",
    timestamp := 200, version := "h2", previousVersion := "h1" }

/-- A database holding both diffs for `a.ts` with current hash `h2`. -/
def exDb : DbState :=
  { diffs := [exDiff1, exDiff2], nextDiffId := 3,
    fileVersions := [{ file := "a.ts", hash := "h2", timestamp := 200 }] }

/-- An incoming diff for `a.ts` whose `previousVersion` (`h0`)
disagrees with the stored hash (`h2`). -/
def exIncoming : FileDiff :=
  { file := "a.ts", patch := "@@ -1,1 +1,1 @@\n-x\n+z\n", author := "carol",
    timestamp := 250, version := "hX", previousVersion := "h0" }

/-- An in-memory lock entry held by `X` over socket `s1`. -/
def exLockEntry : LockEntry :=
  { file := "a.ts", lockedBy := "X", lockType := LockType.editing, since := 0,
    socketId := some "s1" }

/-- Lock-manager state whose map and persisted table both hold exactly
that lock. -/
def exLockState : LockManagerState :=
  { inMemoryLocks := [exLockEntry], db := { locks := [exLockEntry.toLockState] } }

/-- A database whose only trace of `a.ts` is the version row created
by a `sync:full-file` message (no diff rows). -/
def exFullDb : DbState :=
  (handleSyncFullFile "a.ts" "let x = 1;" "h1" 50 emptyDb).1

/-! ## Theorems -/

theorem takeDigits_length {cs : List Char} {n : Nat} {r : List Char}
    (h : takeDigits cs = some (n, r)) : r.length ≤ cs.length := by
  unfold takeDigits at h
  split at h
  · exact absurd h (by simp)
  · simp only [Option.some.injEq, Prod.mk.injEq] at h
    obtain ⟨-, rfl⟩ := h
    rw [List.length_drop]
    exact Nat.sub_le _ _

theorem matchOptCount_length (cs : List Char) :
    (matchOptCount cs).2.length ≤ cs.length := by
  unfold matchOptCount
  split
  · rename_i rest
    split
    · rename_i n r h
      have := takeDigits_length h
      simp only [List.length_cons]
      omega
    · simp
  · simp

theorem matchHunkAt_length {cs : List Char} {cd : Nat × Option Nat} {rest : List Char}
    (h : matchHunkAt cs = some (cd, rest)) : rest.length < cs.length := by
  unfold matchHunkAt at h
  split at h
  · rename_i r0
    split at h
    · exact absurd h (by simp)
    · rename_i a r1 hr1
      have h1 : r1.length ≤ r0.length := takeDigits_length hr1
      split at h
      · rename_i b r2 hr2
        have h2 : r2.length ≤ r1.length := by
          have := matchOptCount_length r1
          rw [hr2] at this
          exact this
        split at h
        · rename_i r3
          split at h
          · exact absurd h (by simp)
          · rename_i c r4 hr4
            have h3 : r4.length ≤ r3.length := takeDigits_length hr4
            split at h
            · rename_i dOpt r5 hr5
              have h4 : r5.length ≤ r4.length := by
                have := matchOptCount_length r4
                rw [hr5] at this
                exact this
              split at h
              · rename_i r6
                obtain ⟨rfl, rfl⟩ : cd = (c, dOpt) ∧ rest = r6 := by
                  constructor <;> · injection h with h5; cases h5; rfl
                simp only [List.length_cons] at *
                omega
              · exact absurd h (by simp)
        · exact absurd h (by simp)
  · exact absurd h (by simp)

example : extractPatchRanges "@@ -1,3 +2,4 @@\n ctx\n+new\n" = [{ start := 2, stop := some 5 }] := by
  decide

example : extractPatchRanges "@@ -3 +7 @@\n+x\n" = [{ start := 7, stop := some 7 }] := by
  decide

example : extractPatchRanges "no hunks here" = [{ start := 0, stop := none }] := by
  decide

example :
    extractPatchRanges "@@ -1,2 +1,2 @@\n-a\n+b\n@@ -9,2 +10,3 @@\n+c\n" =
      [{ start := 1, stop := some 2 }, { start := 10, stop := some 12 }] := by
  decide


/-- Claim C1.  The claim states that the diff passed as `existing` to
the conflict detector is the most recent stored diff for the file (the
greatest timestamp among retained rows).  The handler instead takes
the LAST element of `getDiffsByFile`, which is ordered newest-first,
and therefore passes the OLDEST retained diff: on a table holding two
diffs for `a.ts` with timestamps 100 and 200, a mismatching `file:diff`
is checked against the timestamp-100 diff although the timestamp-200
diff is retained.  This contradicts the specification's "Input: the
most recent stored diff for a file (`existing`)". -/
theorem partSync_C1_conflict_target_is_oldest :
    conflictCheckTarget exDb exIncoming = some exDiff1 ∧
    exDiff2 ∈ exDb.diffs ∧
    exDiff1.timestamp < exDiff2.timestamp := by
  decide

/-- Claim C7.  The claim states that the in-memory lock map and the
persisted locks table stay equal (up to the connection id), and in
particular that `releaseAllLocksForClient` deletes from the store
every lock it removes from the map.  The implementation deletes from
the store only by holder name: releasing for client `Y` with socket
`s1` removes the lock held by `X` over `s1` from the map (connection
match) but deletes nothing from the table (name mismatch), leaving the
map empty while the table still holds the row. -/
theorem partSync_C7_release_desyncs_store :
    (releaseAllLocksForClient "Y" (some "s1") exLockState).1 = ["a.ts"] ∧
    (releaseAllLocksForClient "Y" (some "s1") exLockState).2.inMemoryLocks = [] ∧
    (releaseAllLocksForClient "Y" (some "s1") exLockState).2.db.locks =
      [{ file := "a.ts", lockedBy := "X", lockType := LockType.editing, since := 0 }] := by
  decide

/-- Claim C4: when the file is held by a different holder and the lock
has not expired (`now − since < LOCK_EXPIRY`), `acquireLock` returns
failure together with the existing lock and leaves both the in-memory
map and the persisted table untouched. -/
theorem partSync_C4_acquire_denied_no_mutation (s : LockManagerState)
    (file lockedBy : String) (lockType : LockType) (socketId : Option String) (now : Nat)
    (e : LockEntry)
    (hfind : s.inMemoryLocks.find? (fun x => x.file == file) = some e)
    (hother : e.lockedBy ≠ lockedBy)
    (hfresh : (now : Int) - (e.since : Int) < LOCK_EXPIRY_MS) :
    acquireLock file lockedBy lockType socketId now s = ((false, some e.toLockState), s) := by
  unfold acquireLock
  rw [hfind]
  simp [hother, hfresh]

/-- Witness for C4 at a concrete state: `Y` cannot take `a.ts` from
`X` at time 1000 (lock age 1000 ms, expiry 300000 ms). -/
theorem partSync_C4_witness :
    acquireLock "a.ts" "Y" LockType.editing (some "s2") 1000 exLockState =
      ((false, some exLockEntry.toLockState), exLockState) :=
  partSync_C4_acquire_denied_no_mutation exLockState "a.ts" "Y" LockType.editing (some "s2")
    1000 exLockEntry (by decide) (by decide) (by decide)

/-- Claim C9: handling `diff:undo` leaves the database unchanged (the
reverse diff is never inserted and the FileVersion row is not
updated — in particular, if the stored hash equalled the undone diff's
`version` before, it still does); the only effect is the broadcast of
the reverse diff (swapped hashes, same patch text) to all
connections. -/
theorem partSync_C9_undo_leaves_state_unchanged (db : DbState) (clientName : String)
    (diffId now : Nat) :
    (handleDiffUndo clientName diffId now db).db = db ∧
    (∀ d, getDiffById diffId db = some d →
      (handleDiffUndo clientName diffId now db).broadcastAll =
        some { file := d.file, patch := d.patch, author := clientName,
               type := DiffAuthorType.human, timestamp := now,
               version := d.previousVersion, previousVersion := d.version } ∧
      getFileVersion d.file (handleDiffUndo clientName diffId now db).db =
        getFileVersion d.file db ∧
      (∀ fv, getFileVersion d.file db = some fv → fv.hash = d.version →
        ∃ fv', getFileVersion d.file (handleDiffUndo clientName diffId now db).db = some fv' ∧
          fv'.hash = d.version)) ∧
    (getDiffById diffId db = none →
      (handleDiffUndo clientName diffId now db).broadcastAll = none) := by
  unfold handleDiffUndo
  cases h : getDiffById diffId db with
  | none =>
    refine ⟨rfl, ?_, fun _ => rfl⟩
    intro d hd
    exact absurd hd (by simp)
  | some diff =>
    refine ⟨rfl, ?_, ?_⟩
    · intro d hd
      have hdd : d = diff := (Option.some.inj hd).symm
      subst hdd
      exact ⟨rfl, rfl, fun fv hfv hh => ⟨fv, hfv, hh⟩⟩
    · intro hnone
      exact absurd hnone (by simp)

/-- Witness for C9: undoing diff id 2 on the concrete store broadcasts
the reverse diff and changes nothing. -/
theorem partSync_C9_witness :
    (handleDiffUndo "carol" 2 300 exDb).db = exDb ∧
    (handleDiffUndo "carol" 2 300 exDb).broadcastAll =
      some { file := "a.ts", patch := exDiff2.patch, author := "carol",
             type := DiffAuthorType.human, timestamp := 300,
             version := "h1", previousVersion := "h2" } := by
  refine ⟨(partSync_C9_undo_leaves_state_unchanged exDb "carol" 2 300).1, ?_⟩
  have h := ((partSync_C9_undo_leaves_state_unchanged exDb "carol" 2 300).2.1 exDiff2
    (by decide)).1
  exact h

/-- Claim C10: a `file:diff` whose `previousVersion` mismatches the
stored hash, but whose file has no diff rows (e.g. the version row was
created by `sync:full-file`), triggers no conflict: nothing is emitted
on `file:conflict`, the conflicts table is untouched, and the diff is
stored, the version is updated and the diff re-broadcast exactly as in
the non-conflicting case. -/
theorem partSync_C10_no_rows_no_conflict (db : DbState) (diff : FileDiff) (now : Nat)
    (cv : FileVersion)
    (hv : getFileVersion diff.file db = some cv)
    (hne : cv.hash ≠ diff.previousVersion)
    (hempty : fileRows diff.file db = []) :
    handleFileDiff diff now db =
      { db := (storeDiff diff db).2, conflictBroadcast := none,
        storedId := (storeDiff diff db).1,
        rebroadcast := { diff with id := some (storeDiff diff db).1 } } ∧
    (handleFileDiff diff now db).db.conflicts = db.conflicts := by
  have htarget : conflictCheckTarget db diff = none := by
    unfold conflictCheckTarget
    rw [hv]
    show (if cv.hash ≠ diff.previousVersion then (getDiffsForFile diff.file none db).getLast?
          else none) = none
    rw [if_pos hne]
    unfold getDiffsForFile getDiffsByFile
    unfold fileRows at hempty
    rw [hempty]
    rfl
  constructor
  · unfold handleFileDiff
    rw [htarget]
  · unfold handleFileDiff
    rw [htarget]
    rfl

/-- Witness for C10: on the database produced by `sync:full-file`, a
mismatching diff (previous `h0` vs stored `h1`) is stored and
broadcast without a conflict. -/
theorem partSync_C10_witness :
    handleFileDiff exIncoming 60 exFullDb =
      { db := (storeDiff exIncoming exFullDb).2, conflictBroadcast := none,
        storedId := (storeDiff exIncoming exFullDb).1,
        rebroadcast := { exIncoming with id := some (storeDiff exIncoming exFullDb).1 } } ∧
    (handleFileDiff exIncoming 60 exFullDb).db.conflicts = exFullDb.conflicts :=
  partSync_C10_no_rows_no_conflict exFullDb exIncoming 60
    { file := "a.ts", hash := "h1", timestamp := 50 }
    (by decide) (by decide) (by decide)

theorem lastN_trimTo20 {n : Nat} (hn : n ≤ 20) (l : List (String × Nat)) :
    lastN n (trimTo20 l) = lastN n l := by
  unfold lastN trimTo20
  rw [List.reverse_reverse, List.take_take, Nat.min_eq_left hn]

theorem lastN_append_one (n : Nat) (l : List (String × Nat)) (a : String × Nat) :
    lastN (n + 1) (l ++ [a]) = lastN n l ++ [a] := by
  unfold lastN
  rw [List.reverse_append]
  simp

/-- Claim C8: three (or more) consecutive writes with inter-arrival
times below `AI_BURST_THRESHOLD_MS` put the detector in burst mode, so
the next emitted diff is classified `ai` ("agent" in the
specification's vocabulary) and the emitted lock type is `ai-writing`
("agent-writing"); the fallback timer is armed 2000 ms after the last
write, and when it fires (2 s with no further writes) the
classification reverts to `human`/`editing`. -/
theorem partSync_C8_burst_classification (s : AgentDetectorState) (f1 f2 f3 : String)
    (t1 t2 t3 : Nat)
    (h12 : (t2 : Int) - (t1 : Int) < AI_BURST_THRESHOLD_MS)
    (h23 : (t3 : Int) - (t2 : Int) < AI_BURST_THRESHOLD_MS) :
    (recordWrite f3 t3 (recordWrite f2 t2 (recordWrite f1 t1 s))).burstMode = true ∧
    emittedDiffType (recordWrite f3 t3 (recordWrite f2 t2 (recordWrite f1 t1 s))) =
      DiffAuthorType.ai ∧
    emittedLockType (recordWrite f3 t3 (recordWrite f2 t2 (recordWrite f1 t1 s))) =
      LockType.aiWriting ∧
    (recordWrite f3 t3 (recordWrite f2 t2 (recordWrite f1 t1 s))).burstDeadline =
      some (t3 + 2000) ∧
    emittedDiffType
      (burstTimerFire (recordWrite f3 t3 (recordWrite f2 t2 (recordWrite f1 t1 s)))) =
      DiffAuthorType.human ∧
    emittedLockType
      (burstTimerFire (recordWrite f3 t3 (recordWrite f2 t2 (recordWrite f1 t1 s)))) =
      LockType.editing := by
  have hw : ∀ (f : String) (t : Nat) (st : AgentDetectorState),
      (recordWrite f t st).recentWrites = trimTo20 (st.recentWrites ++ [(f, t)]) :=
    fun _ _ _ => rfl
  have hb' : ∀ (f : String) (t : Nat) (st : AgentDetectorState),
      (recordWrite f t st).burstMode =
        (if AI_BURST_COUNT ≤ (lastN AI_BURST_COUNT (trimTo20 (st.recentWrites ++ [(f, t)]))).length
            && allRapid (lastN AI_BURST_COUNT (trimTo20 (st.recentWrites ++ [(f, t)])))
            && !st.burstMode
         then true else st.burstMode) :=
    fun _ _ _ => rfl
  have hwin : lastN AI_BURST_COUNT
      (trimTo20 ((recordWrite f2 t2 (recordWrite f1 t1 s)).recentWrites ++ [(f3, t3)])) =
      [(f1, t1), (f2, t2), (f3, t3)] := by
    rw [hw, hw]
    rw [lastN_trimTo20 (show AI_BURST_COUNT ≤ 20 by decide)]
    rw [show AI_BURST_COUNT = 2 + 1 from by decide, lastN_append_one]
    rw [lastN_trimTo20 (show (2 : Nat) ≤ 20 by decide)]
    rw [show (2 : Nat) = 1 + 1 from rfl, lastN_append_one]
    rw [lastN_trimTo20 (show (1 : Nat) ≤ 20 by decide)]
    rw [show (1 : Nat) = 0 + 1 from rfl, lastN_append_one]
    simp [lastN]
  have hrapid : allRapid [(f1, t1), (f2, t2), (f3, t3)] = true := by
    simp [allRapid, AI_BURST_THRESHOLD_MS] at h12 h23 ⊢
    exact ⟨h12, h23⟩
  have hburst :
      (recordWrite f3 t3 (recordWrite f2 t2 (recordWrite f1 t1 s))).burstMode = true := by
    rw [hb']
    rw [hwin, hrapid]
    cases hb : (recordWrite f2 t2 (recordWrite f1 t1 s)).burstMode <;> simp [AI_BURST_COUNT]
  refine ⟨hburst, ?_, ?_, rfl, rfl, rfl⟩
  · unfold emittedDiffType getAuthorType
    rw [hburst]
    rfl
  · unfold emittedLockType getAuthorType
    rw [hburst]
    rfl

/-- Witness for C8: writes at t = 0, 20, 40 ms (gaps 20 ms) from the
initial detector state. -/
theorem partSync_C8_witness :
    (recordWrite "c.ts" 40 (recordWrite "b.ts" 20 (recordWrite "a.ts" 0 {}))).burstMode =
      true ∧
    emittedDiffType (recordWrite "c.ts" 40 (recordWrite "b.ts" 20 (recordWrite "a.ts" 0 {}))) =
      DiffAuthorType.ai ∧
    emittedLockType (recordWrite "c.ts" 40 (recordWrite "b.ts" 20 (recordWrite "a.ts" 0 {}))) =
      LockType.aiWriting ∧
    (recordWrite "c.ts" 40 (recordWrite "b.ts" 20 (recordWrite "a.ts" 0 {}))).burstDeadline =
      some 2040 ∧
    emittedDiffType (burstTimerFire
      (recordWrite "c.ts" 40 (recordWrite "b.ts" 20 (recordWrite "a.ts" 0 {})))) =
      DiffAuthorType.human ∧
    emittedLockType (burstTimerFire
      (recordWrite "c.ts" 40 (recordWrite "b.ts" 20 (recordWrite "a.ts" 0 {})))) =
      LockType.editing :=
  partSync_C8_burst_classification {} "a.ts" "b.ts" "c.ts" 0 20 40 (by decide) (by decide)

theorem leStop_eq_true_iff (x : Int) (e : Option Int) : leStop x e = true ↔ StopLE x e := by
  cases e <;> simp [leStop, StopLE]

theorem rangesOverlap_eq_true_iff (a b : PatchRange) :
    rangesOverlap a b = true ↔ RangesIntersect a b := by
  simp [rangesOverlap, RangesIntersect, Bool.and_eq_true, leStop_eq_true_iff]

theorem checkOverlap_eq_true_iff (rangesA rangesB : List PatchRange) :
    checkOverlap rangesA rangesB = true ↔ SpecOverlaps rangesA rangesB := by
  simp [checkOverlap, List.any_eq_true, SpecOverlaps, rangesOverlap_eq_true_iff]

theorem dropWhile_no_dot {l : List Char} (h : ∀ c ∈ l, c ≠ '.') (rest : List Char) :
    l.dropWhile (fun c => c != '.' && c != '/') ≠ '.' :: rest := by
  induction l with
  | nil => simp [List.dropWhile]
  | cons c cs ih =>
    rw [List.dropWhile_cons]
    split
    · exact ih (fun x hx => h x (List.mem_cons_of_mem c hx))
    · intro heq
      have hc : c = '.' := (List.cons.inj heq).1
      exact h c (List.mem_cons_self c cs) hc

theorem stripExtension_no_dot {s : String} (h : includesDot s = false) :
    stripExtension s = s := by
  have hmem : ∀ c ∈ s.data.reverse, c ≠ '.' := by
    intro c hc
    rw [List.mem_reverse] at hc
    intro hcc
    subst hcc
    simp [includesDot] at h
    exact h hc
  unfold stripExtension
  split
  · rename_i rest heq
    exact absurd heq (dropWhile_no_dot hmem rest)
  · rfl

theorem conflictFileName_no_dot (f : String) (now : Nat) (h : includesDot f = false) :
    conflictFileName f now = f ++ ".conflict-" ++ toString now ++ ".ts" := by
  unfold conflictFileName conflictExt
  rw [stripExtension_no_dot h, h]
  simp only [Bool.false_eq_true, if_false, String.append_assoc]
  rfl

/-- Claim C3: the conflict detector behaves exactly as specified.
Each patch reduces to the new-side ranges `{c, c+d−1}` of its hunk
headers with `d` defaulting to 1; zero hunks yield the single range
`{0, +∞}` (`stop = none`); the diffs conflict iff some range of one
intersects some range of the other closed-inclusively; on conflict a
`ConflictEvent` with `resolved = false` and
`conflict_file = <base>.conflict-<now>.<ext>` (extension `ts` when the
file name has no dot) is appended to the conflicts table and returned,
and on no overlap the state is untouched and `{merged: true}` is
returned. -/
theorem partSync_C3_conflict_detector (ex inc : FileDiff) (now : Nat) (db : DbState) :
    (∀ p : String, extractPatchRanges p =
      if scanHunks p.data = [] then [{ start := 0, stop := none }]
      else (scanHunks p.data).map (fun cd =>
        { start := (cd.1 : Int), stop := some ((cd.1 : Int) + (cd.2.getD 1 : Int) - 1) })) ∧
    ((resolveConflict ex inc now db).1.merged = false ↔
      SpecOverlaps (extractPatchRanges ex.patch) (extractPatchRanges inc.patch)) ∧
    (¬ SpecOverlaps (extractPatchRanges ex.patch) (extractPatchRanges inc.patch) →
      resolveConflict ex inc now db = ({ merged := true }, db)) ∧
    (SpecOverlaps (extractPatchRanges ex.patch) (extractPatchRanges inc.patch) →
      resolveConflict ex inc now db =
        ({ merged := false
           conflictEvent := some
             { file := inc.file, conflictFile := conflictFileName inc.file now,
               authorA := ex.author, authorB := inc.author, timestamp := now,
               resolved := false }
           conflictFileName := some (conflictFileName inc.file now) },
         { db with
            conflicts := db.conflicts ++
              [{ id := some db.nextConflictId, file := inc.file,
                 conflictFile := conflictFileName inc.file now,
                 authorA := ex.author, authorB := inc.author, timestamp := now,
                 resolved := false }]
            nextConflictId := db.nextConflictId + 1 })) ∧
    (∀ f : String, includesDot f = false →
      conflictFileName f now = f ++ ".conflict-" ++ toString now ++ ".ts") := by
  have hiff := checkOverlap_eq_true_iff (extractPatchRanges ex.patch)
    (extractPatchRanges inc.patch)
  refine ⟨?_, ?_, ?_, ?_, fun f hf => conflictFileName_no_dot f now hf⟩
  · intro p
    cases h : scanHunks p.data <;> simp [extractPatchRanges, h]
  · cases hc : checkOverlap (extractPatchRanges ex.patch) (extractPatchRanges inc.patch)
    · rw [hc] at hiff
      simp [resolveConflict, hc]
      exact fun hs => Bool.false_ne_true (hiff.mpr hs)
    · rw [hc] at hiff
      simp [resolveConflict, hc]
      exact hiff.mp rfl
  · intro hno
    have hc : checkOverlap (extractPatchRanges ex.patch) (extractPatchRanges inc.patch) = false := by
      cases hc : checkOverlap (extractPatchRanges ex.patch) (extractPatchRanges inc.patch)
      · rfl
      · exact absurd (hiff.mp hc) hno
    simp [resolveConflict, hc]
  · intro hyes
    have hc : checkOverlap (extractPatchRanges ex.patch) (extractPatchRanges inc.patch) = true :=
      hiff.mpr hyes
    simp [resolveConflict, hc, insertConflict]

/-- Witness for C3: two overlapping single-line patches on `a.ts`
produce a persisted, returned conflict event with the synthesized
copy name `a.conflict-999.ts`. -/
theorem partSync_C3_witness :
    resolveConflict exDiff1 exIncoming 999 emptyDb =
      ({ merged := false
         conflictEvent := some
           { file := "a.ts", conflictFile := conflictFileName "a.ts" 999,
             authorA := "alice", authorB := "carol", timestamp := 999, resolved := false }
         conflictFileName := some (conflictFileName "a.ts" 999) },
       { emptyDb with
          conflicts :=
            [{ id := some 1, file := "a.ts", conflictFile := conflictFileName "a.ts" 999,
               authorA := "alice", authorB := "carol", timestamp := 999, resolved := false }]
          nextConflictId := 2 }) ∧
    conflictFileName "a.ts" 999 = "a.conflict-999.ts" := by
  refine ⟨?_, by decide⟩
  have h := (partSync_C3_conflict_detector exDiff1 exIncoming 999 emptyDb).2.2.2.1
    (by decide)
  exact h

theorem le_maxMatchingId {file version : String} {rows : List FileDiff} :
    ∀ r ∈ rows, r.file = file → r.version = version →
      rowId r ≤ maxMatchingId file version rows := by
  induction rows with
  | nil => intro r hr; exact absurd hr (by simp)
  | cons a l ih =>
    intro r hr hf hv
    rw [List.mem_cons] at hr
    unfold maxMatchingId
    simp only [List.foldr_cons]
    rcases hr with rfl | hr
    · rw [if_pos (by simp [hf, hv])]
      exact Nat.le_max_left _ _
    · have := ih r hr hf hv
      unfold maxMatchingId at this
      split
      · exact Nat.le_trans this (Nat.le_max_right _ _)
      · exact this

theorem maxMatchingId_spec (file version : String) (rows : List FileDiff) :
    maxMatchingId file version rows = 0 ∨
    ∃ r ∈ rows, r.file = file ∧ r.version = version ∧
      rowId r = maxMatchingId file version rows := by
  induction rows with
  | nil => exact Or.inl rfl
  | cons a l ih =>
    unfold maxMatchingId
    simp only [List.foldr_cons]
    unfold maxMatchingId at ih
    split
    · rename_i hcond
      simp only [Bool.and_eq_true, beq_iff_eq] at hcond
      rcases ih with h0 | ⟨r, hr, hf, hv, hid⟩
      · rw [h0, Nat.max_zero]
        exact Or.inr ⟨a, List.mem_cons_self a l, hcond.1, hcond.2, rfl⟩
      · rcases Nat.le_total (rowId a) (List.foldr _ 0 l) with hle | hle
        · rw [Nat.max_eq_right hle]
          exact Or.inr ⟨r, List.mem_cons_of_mem a hr, hf, hv, hid⟩
        · rw [Nat.max_eq_left hle]
          exact Or.inr ⟨a, List.mem_cons_self a l, hcond.1, hcond.2, rfl⟩
    · rcases ih with h0 | ⟨r, hr, hf, hv, hid⟩
      · exact Or.inl h0
      · exact Or.inr ⟨r, List.mem_cons_of_mem a hr, hf, hv, hid⟩

theorem maxMatchingId_of_no_match {file version : String} {rows : List FileDiff}
    (h : ∀ r ∈ rows, r.file = file → r.version = version → False) :
    maxMatchingId file version rows = 0 := by
  rcases maxMatchingId_spec file version rows with h0 | ⟨r, hr, hf, hv, _⟩
  · exact h0
  · exact absurd (h r hr hf hv) (by simp)

/-- Claim C6: `getDiffsSinceVersion` returns exactly the diffs of the
file whose id exceeds the largest id of a row of that file whose
`version` column equals the given version, ordered ascending by id
(oldest first); when no row matches, it returns all diffs of the file
(ids being positive). -/
theorem partSync_C6_diffs_since (db : DbState) (file version : String)
    (hpos : ∀ r ∈ db.diffs, 0 < rowId r) :
    List.Sorted idLE (getDiffsSinceVersion file version db) ∧
    (∀ m, IsGreatestMatchingId db file version m →
      ∀ r, r ∈ getDiffsSinceVersion file version db ↔
        r ∈ db.diffs ∧ r.file = file ∧ m < rowId r) ∧
    (NoMatchingVersion db file version →
      ∀ r, r ∈ getDiffsSinceVersion file version db ↔ r ∈ db.diffs ∧ r.file = file) := by
  have hmem : ∀ r, r ∈ getDiffsSinceVersion file version db ↔
      r ∈ db.diffs ∧ r.file = file ∧ maxMatchingId file version db.diffs < rowId r := by
    intro r
    unfold getDiffsSinceVersion
    rw [(List.perm_insertionSort idLE _).mem_iff, List.mem_filter]
    simp [Bool.and_eq_true, beq_iff_eq, decide_eq_true_iff, and_assoc]
  refine ⟨?_, ?_, ?_⟩
  · exact List.sorted_insertionSort idLE _
  · intro m hm r
    have heq : maxMatchingId file version db.diffs = m := by
      apply Nat.le_antisymm
      · rcases maxMatchingId_spec file version db.diffs with h0 | ⟨r', hr', hf', hv', hid'⟩
        · rw [h0]; exact Nat.zero_le m
        · rw [← hid']
          exact hm.2 r' hr' hf' hv'
      · obtain ⟨r', hr', hf', hv', hid'⟩ := hm.1
        rw [← hid']
        exact le_maxMatchingId r' hr' hf' hv'
    rw [hmem, heq]
  · intro hno r
    have h0 : maxMatchingId file version db.diffs = 0 :=
      maxMatchingId_of_no_match (fun r' hr' hf' hv' => hno r' hr' hf' hv')
    rw [hmem, h0]
    constructor
    · exact fun ⟨h1, h2, _⟩ => ⟨h1, h2⟩
    · exact fun ⟨h1, h2⟩ => ⟨h1, h2, hpos r h1⟩

/-- Witness for C6 on the concrete store: since version `h1` (largest
matching id 1), the result is sorted ascending and contains the id-2
diff. -/
theorem partSync_C6_witness :
    List.Sorted idLE (getDiffsSinceVersion "a.ts" "h1" exDb) ∧
    (exDiff2 ∈ getDiffsSinceVersion "a.ts" "h1" exDb ↔
      exDiff2 ∈ exDb.diffs ∧ exDiff2.file = "a.ts" ∧ 1 < rowId exDiff2) :=
  ⟨(partSync_C6_diffs_since exDb "a.ts" "h1" (by decide)).1,
   (partSync_C6_diffs_since exDb "a.ts" "h1" (by decide)).2.1 1 (by decide) exDiff2⟩

theorem mem_getDiffsByFile_file {r : FileDiff} {f : String} {db : DbState} {limit : Nat}
    (h : r ∈ getDiffsByFile f db limit) : r.file = f := by
  unfold getDiffsByFile at h
  have h1 := (List.take_sublist _ _).mem h
  rw [(List.perm_insertionSort tsGE _).mem_iff, List.mem_filter] at h1
  exact beq_iff_eq.mp h1.2

theorem mem_getDiffsSinceVersion_file {r : FileDiff} {f v : String} {db : DbState}
    (h : r ∈ getDiffsSinceVersion f v db) : r.file = f := by
  unfold getDiffsSinceVersion at h
  rw [(List.perm_insertionSort idLE _).mem_iff, List.mem_filter] at h
  have := h.2
  simp only [Bool.and_eq_true, beq_iff_eq] at this
  exact this.1

theorem handshakeMissingFor_file {db : DbState} {client : List (String × String)}
    {e : String × String} {r : FileDiff} (h : r ∈ handshakeMissingFor db client e) :
    r.file = e.1 := by
  unfold handshakeMissingFor at h
  split at h
  · split at h
    · exact absurd h (by simp)
    · split at h
      · exact mem_getDiffsByFile_file h
      · exact mem_getDiffsSinceVersion_file h
  · exact mem_getDiffsByFile_file h

theorem filter_flatMap_handshake (db : DbState) (client : List (String × String))
    (entries : List (String × String)) (file serverHash : String)
    (hnd : (entries.map Prod.fst).Nodup)
    (hmem : (file, serverHash) ∈ entries) :
    (entries.flatMap (handshakeMissingFor db client)).filter (fun r => r.file == file) =
      handshakeMissingFor db client (file, serverHash) := by
  induction entries with
  | nil => exact absurd hmem (by simp)
  | cons e rest ih =>
    rw [List.flatMap_cons, List.filter_append]
    rw [List.map_cons, List.nodup_cons] at hnd
    by_cases hef : e.1 = file
    · have he : e = (file, serverHash) := by
        rcases List.mem_cons.mp hmem with h | h
        · exact h.symm
        · exfalso
          apply hnd.1
          rw [hef]
          exact List.mem_map.mpr ⟨(file, serverHash), h, rfl⟩
      subst he
      have h1 : (handshakeMissingFor db client (file, serverHash)).filter
          (fun r => r.file == file) = handshakeMissingFor db client (file, serverHash) := by
        rw [List.filter_eq_self]
        intro r hr
        exact beq_iff_eq.mpr (handshakeMissingFor_file hr)
      have h2 : (rest.flatMap (handshakeMissingFor db client)).filter
          (fun r => r.file == file) = [] := by
        rw [List.filter_eq_nil_iff]
        intro r hr
        obtain ⟨e', he', hre⟩ := List.mem_flatMap.mp hr
        have hrf : r.file = e'.1 := handshakeMissingFor_file hre
        have hne : e'.1 ≠ file := by
          intro hh
          apply hnd.1
          rw [show (file, serverHash).1 = file from rfl, ← hh]
          exact List.mem_map.mpr ⟨e', he', rfl⟩
        simp only [beq_iff_eq]
        exact fun hh => hne (hrf ▸ hh)
      rw [h1, h2, List.append_nil]
    · have h1 : (handshakeMissingFor db client e).filter (fun r => r.file == file) = [] := by
        rw [List.filter_eq_nil_iff]
        intro r hr
        have hrf : r.file = e.1 := handshakeMissingFor_file hr
        simp only [beq_iff_eq]
        exact fun hh => hef (hrf ▸ hh)
      rw [h1, List.nil_append]
      refine ih hnd.2 ?_
      rcases List.mem_cons.mp hmem with h | h
      · exact absurd (congrArg Prod.fst h.symm) hef
      · exact h

/-- Claim C2, amended.  For each file the relay knows, the handshake
response's `missingDiffs` contribution is: nothing when the client's
hash equals the server's; exactly `getDiffsSinceVersion` — ordered
oldest-first (ascending id) — when the client supplied a different
non-empty hash; and all retained diffs of the file, but ordered
NEWEST-first (descending timestamp, limit 100), when the client has no
hash for the file.  (The claim as frozen asserts oldest-first order in
both cases; the no-hash branch delivers newest-first.) -/
theorem partSync_C2_handshake_amended (db : DbState) (client : List (String × String))
    (file serverHash : String)
    (hnd : (db.fileVersions.map (fun r => r.file)).Nodup)
    (hmem : (file, serverHash) ∈ getAllFileVersions db) :
    ((handleHandshake db client).filter (fun r => r.file == file) =
      handshakeMissingFor db client (file, serverHash)) ∧
    (∀ h, client.lookup file = some h → h ≠ serverHash → h ≠ "" →
      handshakeMissingFor db client (file, serverHash) = getDiffsSinceVersion file h db ∧
      List.Sorted idLE (getDiffsSinceVersion file h db)) ∧
    (client.lookup file = none →
      handshakeMissingFor db client (file, serverHash) = getDiffsByFile file db ∧
      List.Sorted tsGE (getDiffsByFile file db)) ∧
    (∀ h, client.lookup file = some h → h = serverHash →
      handshakeMissingFor db client (file, serverHash) = []) := by
  have hsortedByFile : List.Sorted tsGE (getDiffsByFile file db) := by
    unfold getDiffsByFile
    exact (List.sorted_insertionSort tsGE _).sublist (List.take_sublist _ _)
  refine ⟨?_, ?_, ?_, ?_⟩
  · apply filter_flatMap_handshake db client (getAllFileVersions db) file serverHash ?_ hmem
    unfold getAllFileVersions
    rw [List.map_map]
    exact hnd
  · intro h hl hne hne'
    unfold handshakeMissingFor
    rw [hl]
    refine ⟨?_, List.sorted_insertionSort idLE _⟩
    show (if h = serverHash then ([] : List FileDiff)
          else if h = "" then getDiffsByFile file db
          else getDiffsSinceVersion file h db) = getDiffsSinceVersion file h db
    rw [if_neg hne, if_neg hne']
  · intro hl
    unfold handshakeMissingFor
    rw [hl]
    exact ⟨rfl, hsortedByFile⟩
  · intro h hl he
    unfold handshakeMissingFor
    rw [hl]
    simp [he]

/-- Counterexample to C2 as frozen: a client with no hashes receives
the file's diffs newest-first (timestamps [200, 100]), not
oldest-first. -/
theorem partSync_C2_counterexample :
    handleHandshake exDb [] = [exDiff2, exDiff1] ∧
    exDiff1.timestamp < exDiff2.timestamp := by
  decide

/-- Witness for the amended C2: a client holding hash `h1` for `a.ts`
receives exactly the diffs since `h1`, oldest-first. -/
theorem partSync_C2_witness :
    ((handleHandshake exDb [("a.ts", "h1")]).filter (fun r => r.file == "a.ts") =
      getDiffsSinceVersion "a.ts" "h1" exDb) ∧
    List.Sorted idLE (getDiffsSinceVersion "a.ts" "h1" exDb) := by
  have hth := partSync_C2_handshake_amended exDb [("a.ts", "h1")] "a.ts" "h2"
    (by decide) (by decide)
  have hblock := hth.2.1 "h1" (by decide) (by decide) (by decide)
  exact ⟨hth.1.trans hblock.1, hblock.2⟩

theorem nodup_length_le_of_subset {α : Type} [DecidableEq α] {l₁ l₂ : List α}
    (h₁ : l₁.Nodup) (hsub : ∀ a ∈ l₁, a ∈ l₂) : l₁.length ≤ l₂.length := by
  rw [← List.toFinset_card_of_nodup h₁]
  calc l₁.toFinset.card ≤ l₂.toFinset.card := by
        apply Finset.card_le_card
        intro a ha
        rw [List.mem_toFinset] at ha ⊢
        exact hsub a ha
    _ ≤ l₂.length := List.toFinset_card_le l₂

theorem insertDiff_diffs (diff : FileDiff) (db : DbState) :
    (insertDiff diff db).2.diffs = insertedRows diff db := rfl

theorem storeDiff_diffs (diff : FileDiff) (db : DbState) :
    (storeDiff diff db).2.diffs =
      (insertedRows diff db).filter
        (fun r => r.file != diff.file ||
          ((keptRows diff db).map rowId).contains (rowId r)) := rfl

/-- Claim C5: after a completed `storeDiff` (insert, version upsert,
prune), every file holds at most `MAX_DIFF_HISTORY` (100) diff rows,
and the rows retained for the inserted diff's file are exactly the
newest 100 by timestamp among the rows present after the insert
(`keptRows`); in particular every pruned row's timestamp is at most
every retained row's timestamp. -/
theorem partSync_C5_history_bound (db : DbState) (diff : FileDiff)
    (hwf : WfDiffIds db)
    (hbound : ∀ f, (fileRows f db).length ≤ MAX_DIFF_HISTORY) :
    (∀ f, (fileRows f (storeDiff diff db).2).length ≤ MAX_DIFF_HISTORY) ∧
    (∀ r, r ∈ fileRows diff.file (storeDiff diff db).2 ↔ r ∈ keptRows diff db) ∧
    (∀ k ∈ fileRows diff.file (storeDiff diff db).2,
      ∀ d ∈ fileRows diff.file (insertDiff diff db).2,
        d ∉ fileRows diff.file (storeDiff diff db).2 → d.timestamp ≤ k.timestamp) := by
  have hnewid : rowId { diff with id := some db.nextDiffId } = db.nextDiffId := rfl
  have hnodup : ((insertedRows diff db).map rowId).Nodup := by
    unfold insertedRows
    rw [List.map_append]
    refine List.Nodup.append hwf.1 (List.nodup_singleton _) ?_
    intro a ha hb
    simp only [List.map_cons, List.map_nil, List.mem_singleton] at hb
    obtain ⟨r, hr, rfl⟩ := List.mem_map.mp ha
    have hlt := (hwf.2 r hr).2.2
    rw [hnewid] at hb
    rw [hb] at hlt
    exact Nat.lt_irrefl _ hlt
  have hinj : ∀ a ∈ insertedRows diff db, ∀ b ∈ insertedRows diff db,
      rowId a = rowId b → a = b := List.inj_on_of_nodup_map hnodup
  have hfinal : ∀ r, r ∈ fileRows diff.file (storeDiff diff db).2 ↔ r ∈ keptRows diff db := by
    intro r
    unfold fileRows
    rw [storeDiff_diffs]
    constructor
    · intro hr
      rw [List.mem_filter] at hr
      obtain ⟨hr1, hrf⟩ := hr
      rw [List.mem_filter] at hr1
      obtain ⟨hrins, hrp⟩ := hr1
      have hffalse : (r.file != diff.file) = false := by
        rw [bne, hrf]
        rfl
      rw [hffalse, Bool.false_or] at hrp
      have hmem : rowId r ∈ (keptRows diff db).map rowId := by
        simpa using hrp
      obtain ⟨k, hk, hkid⟩ := List.mem_map.mp hmem
      have hkins : k ∈ insertedRows diff db := by
        have h1 := List.mem_of_mem_take hk
        rw [(List.perm_insertionSort tsGE _).mem_iff, List.mem_filter] at h1
        exact h1.1
      rw [← hinj k hkins r hrins hkid]
      exact hk
    · intro hk
      have h1 := List.mem_of_mem_take hk
      rw [(List.perm_insertionSort tsGE _).mem_iff, List.mem_filter] at h1
      rw [List.mem_filter]
      refine ⟨?_, h1.2⟩
      rw [List.mem_filter]
      refine ⟨h1.1, ?_⟩
      have : rowId r ∈ (keptRows diff db).map rowId := List.mem_map.mpr ⟨r, hk, rfl⟩
      simp [this]
  have hkeptlen : (keptRows diff db).length ≤ MAX_DIFF_HISTORY := by
    unfold keptRows
    exact List.length_take_le _ _
  have hlen : (fileRows diff.file (storeDiff diff db).2).length ≤ MAX_DIFF_HISTORY := by
    have hnodupfinal : (fileRows diff.file (storeDiff diff db).2).Nodup := by
      unfold fileRows
      rw [storeDiff_diffs]
      exact ((hnodup.of_map).filter _).filter _
    have hsub : ∀ a ∈ fileRows diff.file (storeDiff diff db).2, a ∈ keptRows diff db :=
      fun a ha => (hfinal a).mp ha
    exact Nat.le_trans (nodup_length_le_of_subset hnodupfinal hsub) hkeptlen
  have hother : ∀ f, f ≠ diff.file → fileRows f (storeDiff diff db).2 = fileRows f db := by
    intro f hf
    unfold fileRows
    rw [storeDiff_diffs]
    rw [List.filter_comm]
    have h1 : (insertedRows diff db).filter (fun r => r.file == f) =
        db.diffs.filter (fun r => r.file == f) := by
      unfold insertedRows
      rw [List.filter_append]
      have hnf : (({ diff with id := some db.nextDiffId } : FileDiff).file == f) = false := by
        simp only [beq_eq_false_iff_ne]
        exact fun hh => hf hh.symm
      simp [hnf]
    rw [h1]
    rw [List.filter_eq_self]
    intro a ha
    rw [List.mem_filter] at ha
    have haf : a.file = f := beq_iff_eq.mp ha.2
    have : (a.file != diff.file) = true := by
      simp only [bne_iff_ne, ne_eq]
      rw [haf]
      exact hf
    rw [this, Bool.true_or]
  refine ⟨?_, hfinal, ?_⟩
  · intro f
    by_cases hf : f = diff.file
    · subst hf
      exact hlen
    · rw [hother f hf]
      exact hbound f
  · intro k hk d hd hdn
    have hk' : k ∈ keptRows diff db := (hfinal k).mp hk
    have hd1 : d ∈ List.insertionSort tsGE
        ((insertedRows diff db).filter (fun x => x.file == diff.file)) := by
      unfold fileRows at hd
      rw [insertDiff_diffs] at hd
      exact ((List.perm_insertionSort tsGE _).mem_iff).mpr hd
    have hdn' : d ∉ keptRows diff db := fun h => hdn ((hfinal d).mpr h)
    have hsorted := List.sorted_insertionSort tsGE
      ((insertedRows diff db).filter (fun x => x.file == diff.file))
    have hsplit := List.take_append_drop MAX_DIFF_HISTORY (List.insertionSort tsGE
      ((insertedRows diff db).filter (fun x => x.file == diff.file)))
    rcases List.mem_append.mp (by rw [hsplit]; exact hd1) with h | h
    · exact absurd h hdn'
    · have hpw := List.pairwise_append.mp (by rw [hsplit]; exact hsorted)
      exact hpw.2.2 k hk' d h

/-- Witness for C5: storing a diff into the empty database leaves one
retained row for `a.ts`, within the bound and characterized by
`keptRows`. -/
theorem partSync_C5_witness :
    (fileRows "a.ts" (storeDiff exIncoming emptyDb).2).length ≤ MAX_DIFF_HISTORY ∧
    ({ exIncoming with id := some 1 } ∈ fileRows "a.ts" (storeDiff exIncoming emptyDb).2 ↔
      { exIncoming with id := some 1 } ∈ keptRows exIncoming emptyDb) := by
  have h := partSync_C5_history_bound emptyDb exIncoming (by decide)
    (fun f => by simp [fileRows, emptyDb])
  exact ⟨h.1 "a.ts", h.2.1 { exIncoming with id := some 1 }⟩

end PartSync
